import Mathlib

/-! # unify-cache-go: the two cache drivers

A shallow embedding of `pkg/driver/local/memory.go` (`BuildInLocalCache`) and
`pkg/driver/redis/redis.go` (`RedisCache`).

Modelling conventions.

* A `time.Time` is an instant on one timeline, counted in nanoseconds from Go's
  zero `Time`; `Add`, `Before` and `IsZero` are then integer addition, strict
  order and comparison with `0`.  A `time.Duration` is a signed nanosecond count.
* Every place where the source calls `time.Now()` takes the clock reading as the
  argument `now`.  The system clock counts from the Unix epoch, so a reading is
  never earlier than `unixEpoch` (`Time.isNow`), and a `time.Duration` is an
  int64 (`Duration.isInt64`); statements about what `Set` can store carry these
  two conditions, since `now.Add(ttl)` is then never the zero `Time`.
* The Go map `map[string]*item` is a function `String → Option (item V)`:
  `none` is "not loaded", assignment is `Function.update`.
* A Go `any` is `Option V` (`none` is the nil interface value) and a Go `error`
  is `Option CacheError` (`none` is the nil error).
* The secondary stores (`*cache.Cache` of go-cache, `redis.Cmdable` of go-redis)
  are external: their behaviour is a parameter (`GoCache`, `Cmdable`), their
  state is carried in a `Handle` together with the list of commands issued
  through it.  The `context.Context` is only forwarded to the redis client, so
  its effect is part of the arbitrary client behaviour.
* Operations that hold the exclusive lock for their whole body (`Set`, `Delete`)
  are one atomic step.  `Get` reads the map under the shared lock and may later
  enter an exclusive section; `GetFrom` takes the result of the first read as a
  separate argument, and `Get` is the run without interference, where both
  sections see the same index.
-/

/-- An instant: nanoseconds since Go's zero `Time`. -/
abbrev Time := Int

/-- A `time.Duration`: a signed count of nanoseconds. -/
abbrev Duration := Int

/-- Go source: `t.Add(d)`. -/
def Time.Add (t : Time) (d : Duration) : Time := t + d

/-- Go source: `t.Before(u)`: `t` is strictly earlier than `u`. -/
def Time.Before (t u : Time) : Bool := decide (t < u)

/-- Go source: `t.IsZero()`. -/
def Time.IsZero (t : Time) : Bool := decide (t = 0)

/-- The Unix epoch, 1970-01-01 00:00:00 UTC, as an instant: 62135596800 seconds
after the zero `Time`, in nanoseconds. -/
def unixEpoch : Time := 62135596800000000000

/-- The instant can be a reading of `time.Now()`: the system clock counts from
the Unix epoch, so it does not read earlier. -/
def Time.isNow (t : Time) : Bool := decide (unixEpoch ≤ t)

/-- The count is a value of Go's `time.Duration`, an int64: between `-2^63` and
`2^63 - 1` nanoseconds, about 292 years either way. -/
def Duration.isInt64 (d : Duration) : Bool :=
  decide (-9223372036854775808 ≤ d ∧ d ≤ 9223372036854775807)

/-- A Go `any`; `none` is nil. -/
abbrev any (V : Type) := Option V

/-- Modelled from the spec: the sentinel `ErrNotFound` that both packages
return from `Get`; its declaration is not among the source files.  NotFound is
the single error condition surfaced to callers. -/
inductive CacheError where
  | ErrNotFound
  deriving DecidableEq

/-- A Go `error`; `none` is nil. -/
abbrev error := Option CacheError

/-- Go source: `type item struct { val any; deadline time.Time }`, declared identically in
both packages. -/
structure item (V : Type) where
  val : any V
  deadline : Time
  deriving DecidableEq

/-- A command issued to a secondary store. -/
inductive ClientCall (V : Type) where
  | Set (key : String) (val : any V) (expiration : Duration)
  | Get (key : String)
  | Del (key : String)
  deriving DecidableEq

/-- The behaviour of go-cache's `*cache.Cache` as far as the local driver uses
it: `Set` has no result. -/
structure GoCache (S V : Type) where
  Set : S → String → any V → Duration → S

/-- The behaviour of a `redis.Cmdable` as far as the driver and its tests use
it.  Every command yields the next store state and a result that may carry an
error. -/
structure Cmdable (R V : Type) where
  Set : R → String → any V → Duration → R × Option String
  Get : R → String → R × any V × Option String
  Del : R → String → R × Int × Option String

/-- A client handle: the state of the store behind it and the commands issued
through it so far, oldest first. -/
structure Handle (S V : Type) where
  store : S
  issued : List (ClientCall V)

/-- Go source: `client.Set(key, val, expiration)` on the go-cache handle. -/
def GoCache.call_Set {S V : Type} (gc : GoCache S V) (h : Handle S V)
    (key : String) (val : any V) (expiration : Duration) : Handle S V :=
  ⟨gc.Set h.store key val expiration, h.issued ++ [ClientCall.Set key val expiration]⟩

/-- Go source: `client.Set(ctx, key, val, expiration)` on the redis handle; the returned
`*StatusCmd` is dropped by the caller. -/
def Cmdable.call_Set {R V : Type} (cl : Cmdable R V) (h : Handle R V)
    (key : String) (val : any V) (expiration : Duration) : Handle R V :=
  ⟨(cl.Set h.store key val expiration).1, h.issued ++ [ClientCall.Set key val expiration]⟩

/-- Go source: `client.Del(ctx, key)` on the redis handle; the returned `*IntCmd` is
dropped by the caller. -/
def Cmdable.call_Del {R V : Type} (cl : Cmdable R V) (h : Handle R V)
    (key : String) : Handle R V :=
  ⟨(cl.Del h.store key).1, h.issued ++ [ClientCall.Del key]⟩

/-! ## Package `local` -/

/-- Go source: `type BuildInLocalCache struct { mutex; data; client }`. -/
structure BuildInLocalCache (S V : Type) where
  data : String → Option (item V)
  client : Handle S V

/-- Go source: `NewBuildInLocalCache()`; `s0` is the state of the go-cache made by
`cache.New`. -/
def NewBuildInLocalCache {S V : Type} (s0 : S) : BuildInLocalCache S V :=
  ⟨fun _ => none, ⟨s0, []⟩⟩

/-- Go source: `item.deadlineBefore` of package `local`:
`!i.deadline.IsZero() && i.deadline.Before(t)`. -/
def BuildInLocalCache.deadlineBefore {V : Type} (i : item V) (t : Time) : Bool :=
  !Time.IsZero i.deadline && Time.Before i.deadline t

/-- Go source: `BuildInLocalCache.Set`. -/
def BuildInLocalCache.Set {S V : Type} (gc : GoCache S V) (blc : BuildInLocalCache S V)
    (now : Time) (key : String) (val : any V) (expiration : Duration) :
    BuildInLocalCache S V × error :=
  let it : item V := ⟨val, Time.Add now expiration⟩
  (⟨Function.update blc.data key (some it), gc.call_Set blc.client key val expiration⟩, none)

/-- Go source: `BuildInLocalCache.delete` (the unexported helper). -/
def BuildInLocalCache.delete {S V : Type} (blc : BuildInLocalCache S V) (key : String) :
    BuildInLocalCache S V :=
  match blc.data key with
  | none => blc
  | some _ => ⟨Function.update blc.data key none, blc.client⟩

/-- Go source: `BuildInLocalCache.Get`, where `snap` is what `blc.data[key]` gave under the
shared lock and `blc` is the cache as the exclusive section finds it. -/
def BuildInLocalCache.GetFrom {S V : Type} (snap : Option (item V))
    (blc : BuildInLocalCache S V) (now : Time) (key : String) :
    BuildInLocalCache S V × any V × error :=
  match snap with
  | none => (blc, none, some CacheError.ErrNotFound)
  | some res =>
    if BuildInLocalCache.deadlineBefore res now then
      match blc.data key with
      | none => (blc, none, some CacheError.ErrNotFound)
      | some res2 =>
        if BuildInLocalCache.deadlineBefore res2 now then
          (blc.delete key, none, some CacheError.ErrNotFound)
        else (blc, res2.val, none)
    else (blc, res.val, none)

/-- Go source: `BuildInLocalCache.Get` without interference between its two sections. -/
def BuildInLocalCache.Get {S V : Type} (blc : BuildInLocalCache S V) (now : Time)
    (key : String) : BuildInLocalCache S V × any V × error :=
  BuildInLocalCache.GetFrom (blc.data key) blc now key

/-- Go source: `BuildInLocalCache.Delete`. -/
def BuildInLocalCache.Delete {S V : Type} (blc : BuildInLocalCache S V) (key : String) :
    BuildInLocalCache S V × error :=
  (blc.delete key, none)

/-! ## Package `redis` -/

/-- Go source: `type RedisCache struct { mutex; data; client }`. -/
structure RedisCache (R V : Type) where
  data : String → Option (item V)
  client : Handle R V

/-- Go source: `NewRedisCache(client)`; `r0` is the state of the store behind `client`. -/
def NewRedisCache {R V : Type} (r0 : R) : RedisCache R V :=
  ⟨fun _ => none, ⟨r0, []⟩⟩

/-- Go source: `item.deadlineBefore` of package `redis`: `i.deadline.Before(t)`. -/
def RedisCache.deadlineBefore {V : Type} (i : item V) (t : Time) : Bool :=
  Time.Before i.deadline t

/-- Go source: `RedisCache.Set`. -/
def RedisCache.Set {R V : Type} (cl : Cmdable R V) (rc : RedisCache R V)
    (now : Time) (key : String) (val : any V) (expiration : Duration) :
    RedisCache R V × error :=
  let it : item V := ⟨val, Time.Add now expiration⟩
  (⟨Function.update rc.data key (some it), cl.call_Set rc.client key val expiration⟩, none)

/-- Go source: `RedisCache.delete` (the unexported helper): the map only. -/
def RedisCache.delete {R V : Type} (rc : RedisCache R V) (key : String) : RedisCache R V :=
  match rc.data key with
  | none => rc
  | some _ => ⟨Function.update rc.data key none, rc.client⟩

/-- Go source: `RedisCache.Get`, where `snap` is what `rc.data[key]` gave under the shared
lock and `rc` is the cache as the exclusive section finds it. -/
def RedisCache.GetFrom {R V : Type} (snap : Option (item V))
    (rc : RedisCache R V) (now : Time) (key : String) :
    RedisCache R V × any V × error :=
  match snap with
  | none => (rc, none, some CacheError.ErrNotFound)
  | some res =>
    if RedisCache.deadlineBefore res now then
      (rc.delete key, none, some CacheError.ErrNotFound)
    else (rc, res.val, none)

/-- Go source: `RedisCache.Get` without interference between its two sections. -/
def RedisCache.Get {R V : Type} (rc : RedisCache R V) (now : Time)
    (key : String) : RedisCache R V × any V × error :=
  RedisCache.GetFrom (rc.data key) rc now key

/-- Go source: `RedisCache.Delete`. -/
def RedisCache.Delete {R V : Type} (cl : Cmdable R V) (rc : RedisCache R V) (key : String) :
    RedisCache R V × error :=
  let rc1 := rc.delete key
  (⟨rc1.data, cl.call_Del rc1.client key⟩, none)

/-! ## Sequences of calls -/

/-- One call of the public contract, with the clock reading at which it runs
(`Delete` does not read the clock). -/
inductive Call (V : Type) where
  | Set (now : Time) (key : String) (val : any V) (expiration : Duration)
  | Get (now : Time) (key : String)
  | Delete (now : Time) (key : String)

/-- The call is a `Set` of `key`. -/
def Call.setsKey {V : Type} (c : Call V) (key : String) : Bool :=
  match c with
  | Call.Set _ k _ _ => decide (k = key)
  | _ => false

/-- The call is a `Set` whose computed deadline `now.Add(expiration)` is the zero
`Time`. -/
def Call.zeroDeadline {V : Type} (c : Call V) : Bool :=
  match c with
  | Call.Set now _ _ expiration => Time.IsZero (Time.Add now expiration)
  | _ => false

/-- The call is one the program can make: a `Set` takes its clock reading from
`time.Now()` and its ttl is a `time.Duration`.  `Get` and `Delete` store no
deadline and are under no condition. -/
def Call.wellTimed {V : Type} (c : Call V) : Bool :=
  match c with
  | Call.Set now _ _ expiration => Time.isNow now && Duration.isInt64 expiration
  | _ => true

/-- One call on the local driver: the next cache, the value and the error
returned (`Set` and `Delete` return no value). -/
def BuildInLocalCache.step {S V : Type} (gc : GoCache S V) (blc : BuildInLocalCache S V)
    (c : Call V) : BuildInLocalCache S V × any V × error :=
  match c with
  | Call.Set now key val expiration =>
    ((BuildInLocalCache.Set gc blc now key val expiration).1, none,
      (BuildInLocalCache.Set gc blc now key val expiration).2)
  | Call.Get now key => BuildInLocalCache.Get blc now key
  | Call.Delete _ key => ((BuildInLocalCache.Delete blc key).1, none,
      (BuildInLocalCache.Delete blc key).2)

/-- One call on the redis driver. -/
def RedisCache.step {R V : Type} (cl : Cmdable R V) (rc : RedisCache R V)
    (c : Call V) : RedisCache R V × any V × error :=
  match c with
  | Call.Set now key val expiration =>
    ((RedisCache.Set cl rc now key val expiration).1, none,
      (RedisCache.Set cl rc now key val expiration).2)
  | Call.Get now key => RedisCache.Get rc now key
  | Call.Delete _ key => ((RedisCache.Delete cl rc key).1, none,
      (RedisCache.Delete cl rc key).2)

/-- The cache after a sequence of calls, one after the other. -/
def BuildInLocalCache.exec {S V : Type} (gc : GoCache S V) (blc : BuildInLocalCache S V) :
    List (Call V) → BuildInLocalCache S V
  | [] => blc
  | c :: cs => BuildInLocalCache.exec gc (BuildInLocalCache.step gc blc c).1 cs

/-- The cache after a sequence of calls, one after the other. -/
def RedisCache.exec {R V : Type} (cl : Cmdable R V) (rc : RedisCache R V) :
    List (Call V) → RedisCache R V
  | [] => rc
  | c :: cs => RedisCache.exec cl (RedisCache.step cl rc c).1 cs

/-- What a sequence of calls shows: for each call, the value and the error it
returned and the index right after it. -/
def BuildInLocalCache.run {S V : Type} (gc : GoCache S V) (blc : BuildInLocalCache S V) :
    List (Call V) → List ((any V × error) × (String → Option (item V)))
  | [] => []
  | c :: cs =>
    ((BuildInLocalCache.step gc blc c).2, (BuildInLocalCache.step gc blc c).1.data) ::
      BuildInLocalCache.run gc (BuildInLocalCache.step gc blc c).1 cs

/-- What a sequence of calls shows: for each call, the value and the error it
returned and the index right after it. -/
def RedisCache.run {R V : Type} (cl : Cmdable R V) (rc : RedisCache R V) :
    List (Call V) → List ((any V × error) × (String → Option (item V)))
  | [] => []
  | c :: cs =>
    ((RedisCache.step cl rc c).2, (RedisCache.step cl rc c).1.data) ::
      RedisCache.run cl (RedisCache.step cl rc c).1 cs

/-! ## Sample clients -/

/-- A go-cache stand-in that keeps nothing. -/
def nullGoCache (V : Type) : GoCache Unit V :=
  ⟨fun _ _ _ _ => ()⟩

/-- A redis client whose every command fails. -/
def downClient (V : Type) : Cmdable Unit V :=
  ⟨fun _ _ _ _ => ((), some "connection refused"),
   fun _ _ => ((), none, some "connection refused"),
   fun _ _ => ((), 0, some "connection refused")⟩

/-- A redis client that answers every read with `v` and accepts every write. -/
def constClient {V : Type} (v : V) : Cmdable Unit V :=
  ⟨fun _ _ _ _ => ((), none),
   fun _ _ => ((), some v, none),
   fun _ _ => ((), 1, none)⟩

/-- An index with the single entry `key ↦ it`. -/
def singleton {V : Type} (key : String) (it : item V) : String → Option (item V) :=
  Function.update (fun _ => none) key (some it)

/-! ## Several `Set` calls on one key -/

/-- What one `Set` call on a fixed key carries: the clock reading it takes
under the exclusive lock, the value and the ttl. -/
structure SetArgs (V : Type) where
  now : Time
  val : any V
  expiration : Duration

/-- The `Set` calls on `key`, in the order in which they hold the exclusive
lock. -/
def setCalls {V : Type} (key : String) (sets : List (SetArgs V)) : List (Call V) :=
  sets.map (fun s => Call.Set s.now key s.val s.expiration)

/-! ## Basic facts about the index operations -/

theorem redis_deadlineBefore_iff {V : Type} (i : item V) (t : Time) :
    RedisCache.deadlineBefore i t = true ↔ i.deadline < t := by
  simp [RedisCache.deadlineBefore, Time.Before]

theorem local_deadlineBefore_iff {V : Type} (i : item V) (t : Time) :
    BuildInLocalCache.deadlineBefore i t = true ↔ i.deadline ≠ 0 ∧ i.deadline < t := by
  simp [BuildInLocalCache.deadlineBefore, Time.Before, Time.IsZero]

theorem local_delete_data {S V : Type} (blc : BuildInLocalCache S V)
    (key : String) : (blc.delete key).data = Function.update blc.data key none := by
  unfold BuildInLocalCache.delete
  cases h : blc.data key with
  | none => simp [← h]
  | some it => simp

theorem redis_delete_data {R V : Type} (rc : RedisCache R V)
    (key : String) : (rc.delete key).data = Function.update rc.data key none := by
  unfold RedisCache.delete
  cases h : rc.data key with
  | none => simp [← h]
  | some it => simp

theorem local_delete_client {S V : Type} (blc : BuildInLocalCache S V)
    (key : String) : (blc.delete key).client = blc.client := by
  unfold BuildInLocalCache.delete
  cases blc.data key <;> rfl

theorem redis_delete_client {R V : Type} (rc : RedisCache R V)
    (key : String) : (rc.delete key).client = rc.client := by
  unfold RedisCache.delete
  cases rc.data key <;> rfl

theorem local_delete_absent {S V : Type} (blc : BuildInLocalCache S V)
    (key : String) (h : blc.data key = none) : blc.delete key = blc := by
  simp [BuildInLocalCache.delete, h]

theorem redis_delete_absent {R V : Type} (rc : RedisCache R V)
    (key : String) (h : rc.data key = none) : rc.delete key = rc := by
  simp [RedisCache.delete, h]

/-- In the run without interference the local `Get` is: absent, NotFound;
expired, delete and NotFound; otherwise the value. -/
theorem local_Get_eq {S V : Type} (blc : BuildInLocalCache S V) (now : Time)
    (key : String) :
    blc.Get now key =
      match blc.data key with
      | none => (blc, none, some CacheError.ErrNotFound)
      | some res =>
        if BuildInLocalCache.deadlineBefore res now then
          (blc.delete key, none, some CacheError.ErrNotFound)
        else (blc, res.val, none) := by
  unfold BuildInLocalCache.Get BuildInLocalCache.GetFrom
  cases h : blc.data key with
  | none => rfl
  | some res =>
    by_cases hb : BuildInLocalCache.deadlineBefore res now = true
    · simp [hb]
    · simp [hb]

theorem local_Get_Set_data {S V : Type} (gc : GoCache S V)
    (blc : BuildInLocalCache S V) (t : Time) (key : String) (val : any V) (ttl : Duration) :
    (BuildInLocalCache.Set gc blc t key val ttl).1.data key = some ⟨val, Time.Add t ttl⟩ := by
  simp [BuildInLocalCache.Set]

theorem redis_Get_Set_data {R V : Type} (cl : Cmdable R V)
    (rc : RedisCache R V) (t : Time) (key : String) (val : any V) (ttl : Duration) :
    (RedisCache.Set cl rc t key val ttl).1.data key = some ⟨val, Time.Add t ttl⟩ := by
  simp [RedisCache.Set]

/-! ## Set, then Get -/

/-- C1: in both drivers, after `Set(key, val, ttl)` with `ttl > 0` at time `t`, a
`Get(key)` at any time `t'` with `t ≤ t' < t + ttl` returns exactly `val` with a
nil error and leaves the cache, so also its index, as `Set` left it. -/
theorem set_then_get_within_ttl {S R V : Type} (gc : GoCache S V) (cl : Cmdable R V)
    (blc : BuildInLocalCache S V) (rc : RedisCache R V) (key : String) (val : any V)
    (ttl : Duration) (t t' : Time)
    (httl : 0 < ttl) (hfrom : t ≤ t') (huntil : t' < Time.Add t ttl) :
    (BuildInLocalCache.Set gc blc t key val ttl).1.Get t' key
        = ((BuildInLocalCache.Set gc blc t key val ttl).1, val, none)
    ∧ (RedisCache.Set cl rc t key val ttl).1.Get t' key
        = ((RedisCache.Set cl rc t key val ttl).1, val, none) := by
  have hnb : ¬ (Time.Add t ttl < t') := not_lt.mpr (le_of_lt huntil)
  constructor
  · rw [local_Get_eq, local_Get_Set_data]
    have h : BuildInLocalCache.deadlineBefore (⟨val, Time.Add t ttl⟩ : item V) t' = false := by
      rw [Bool.eq_false_iff, Ne, local_deadlineBefore_iff]
      exact fun h => hnb h.2
    simp [h]
  · unfold RedisCache.Get RedisCache.GetFrom
    rw [redis_Get_Set_data]
    have h : RedisCache.deadlineBefore (⟨val, Time.Add t ttl⟩ : item V) t' = false := by
      rw [Bool.eq_false_iff, Ne, redis_deadlineBefore_iff]
      exact hnb
    simp [h]

/-- Witness for C1: `Set("", 7, 60)` at time 1000 on fresh caches, read at 1059. -/
theorem set_then_get_within_ttl_witness :
    (BuildInLocalCache.Set (nullGoCache Nat) (NewBuildInLocalCache ()) 1000 "" (some 7) 60).1.Get
        1059 ""
        = ((BuildInLocalCache.Set (nullGoCache Nat) (NewBuildInLocalCache ()) 1000 "" (some 7)
            60).1, some 7, none)
    ∧ (RedisCache.Set (downClient Nat) (NewRedisCache ()) 1000 "" (some 7) 60).1.Get 1059 ""
        = ((RedisCache.Set (downClient Nat) (NewRedisCache ()) 1000 "" (some 7) 60).1,
            some 7, none) :=
  set_then_get_within_ttl (nullGoCache Nat) (downClient Nat) (NewBuildInLocalCache ())
    (NewRedisCache ()) "" (some 7) 60 1000 1059 (by decide) (by decide) (by decide)

/-! ## Get of a key without an entry -/

/-- C4: in both drivers `Get` of a key that has no entry in the index fails with
NotFound, returns a nil value and leaves the cache, so also its index, unchanged;
this is so for every key on a freshly constructed cache. -/
theorem get_absent_not_found {S R V : Type} (blc : BuildInLocalCache S V)
    (rc : RedisCache R V) (key : String) (now : Time)
    (hl : blc.data key = none) (hr : rc.data key = none) :
    blc.Get now key = (blc, none, some CacheError.ErrNotFound)
    ∧ rc.Get now key = (rc, none, some CacheError.ErrNotFound)
    ∧ (∀ (s0 : S) (k : String) (n : Time),
        (NewBuildInLocalCache s0 : BuildInLocalCache S V).Get n k
          = (NewBuildInLocalCache s0, none, some CacheError.ErrNotFound))
    ∧ (∀ (r0 : R) (k : String) (n : Time),
        (NewRedisCache r0 : RedisCache R V).Get n k
          = (NewRedisCache r0, none, some CacheError.ErrNotFound)) := by
  refine ⟨?_, ?_, ?_, ?_⟩
  · simp [BuildInLocalCache.Get, BuildInLocalCache.GetFrom, hl]
  · simp [RedisCache.Get, RedisCache.GetFrom, hr]
  · intro s0 k n
    simp [BuildInLocalCache.Get, BuildInLocalCache.GetFrom, NewBuildInLocalCache]
  · intro r0 k n
    simp [RedisCache.Get, RedisCache.GetFrom, NewRedisCache]

/-- Witness for C4: the empty key on caches that hold only the key "a". -/
theorem get_absent_not_found_witness :
    (singleton "a" (⟨some 1, 50⟩ : item Nat)) "" = none
    ∧ (BuildInLocalCache.mk (singleton "a" (⟨some 1, 50⟩ : item Nat)) ⟨(), []⟩).Get 10 ""
        = (BuildInLocalCache.mk (singleton "a" ⟨some 1, 50⟩) ⟨(), []⟩, none,
            some CacheError.ErrNotFound)
    ∧ (RedisCache.mk (singleton "a" (⟨some 1, 50⟩ : item Nat)) ⟨(), []⟩).Get 10 ""
        = (RedisCache.mk (singleton "a" ⟨some 1, 50⟩) ⟨(), []⟩, none,
            some CacheError.ErrNotFound) :=
  have h : (singleton "a" (⟨some 1, 50⟩ : item Nat)) "" = none := by decide
  ⟨h,
   (get_absent_not_found (BuildInLocalCache.mk (singleton "a" ⟨some 1, 50⟩) ⟨(), []⟩)
      (RedisCache.mk (singleton "a" ⟨some 1, 50⟩) ⟨(), []⟩) "" 10 h h).1,
   (get_absent_not_found (BuildInLocalCache.mk (singleton "a" ⟨some 1, 50⟩) ⟨(), []⟩)
      (RedisCache.mk (singleton "a" ⟨some 1, 50⟩) ⟨(), []⟩) "" 10 h h).2.1⟩

/-! ## Delete -/

theorem local_delete_key {S V : Type} (blc : BuildInLocalCache S V)
    (key : String) : (blc.delete key).data key = none := by
  simp [local_delete_data]

theorem redis_delete_key {R V : Type} (rc : RedisCache R V)
    (key : String) : (rc.delete key).data key = none := by
  simp [redis_delete_data]

theorem redis_Delete_data {R V : Type} (cl : Cmdable R V) (rc : RedisCache R V)
    (key : String) : (rc.Delete cl key).1.data = Function.update rc.data key none := by
  simp [RedisCache.Delete, redis_delete_data]

/-- C5: in both drivers, whatever the index holds for `key` (a live entry, an
expired one or none), `Delete(key)` returns a nil error and a `Get(key)` after it,
at any time, fails with NotFound and returns a nil value (and changes nothing). -/
theorem delete_then_get_not_found {S R V : Type} (cl : Cmdable R V)
    (blc : BuildInLocalCache S V) (rc : RedisCache R V) (key : String) (now : Time) :
    (blc.Delete key).2 = none
    ∧ (blc.Delete key).1.Get now key = ((blc.Delete key).1, none, some CacheError.ErrNotFound)
    ∧ (rc.Delete cl key).2 = none
    ∧ (rc.Delete cl key).1.Get now key
        = ((rc.Delete cl key).1, none, some CacheError.ErrNotFound) := by
  refine ⟨rfl, ?_, rfl, ?_⟩
  · have h : (blc.Delete key).1.data key = none := by
      simp [BuildInLocalCache.Delete, local_delete_key]
    simp [BuildInLocalCache.Get, BuildInLocalCache.GetFrom, h]
  · have h : (rc.Delete cl key).1.data key = none := by
      simp [redis_Delete_data]
    simp [RedisCache.Get, RedisCache.GetFrom, h]

/-- C6: in both drivers `Delete` of a key that has no entry returns a nil error
and leaves the index as it was (the local cache as a whole); for every cache and
key a second `Delete` returns nil and gives the index of the first; and in a run
of `n + 1` `Delete`s of one key every call returns nil. -/
theorem delete_absent_idempotent {S R V : Type} (cl : Cmdable R V)
    (blc : BuildInLocalCache S V) (rc : RedisCache R V) (key : String)
    (hl : blc.data key = none) (hr : rc.data key = none) :
    blc.Delete key = (blc, none)
    ∧ ((rc.Delete cl key).2 = none ∧ (rc.Delete cl key).1.data = rc.data)
    ∧ (∀ (b : BuildInLocalCache S V) (k : String),
        (b.Delete k).1.Delete k = ((b.Delete k).1, none))
    ∧ (∀ (r : RedisCache R V) (k : String),
        ((r.Delete cl k).1.Delete cl k).2 = none
        ∧ ((r.Delete cl k).1.Delete cl k).1.data = (r.Delete cl k).1.data)
    ∧ (∀ (b : BuildInLocalCache S V) (k : String) (n : Nat),
        (((fun c => (BuildInLocalCache.Delete c k).1)^[n] b).Delete k).2 = none)
    ∧ (∀ (r : RedisCache R V) (k : String) (n : Nat),
        (((fun c => (RedisCache.Delete cl c k).1)^[n] r).Delete cl k).2 = none) := by
  refine ⟨?_, ⟨rfl, ?_⟩, ?_, ?_, ?_, ?_⟩
  · simp [BuildInLocalCache.Delete, local_delete_absent blc key hl]
  · rw [redis_Delete_data, ← hr, Function.update_eq_self]
  · intro b k
    have h : (b.delete k).delete k = b.delete k :=
      local_delete_absent _ k (local_delete_key b k)
    simp [BuildInLocalCache.Delete, h]
  · intro r k
    refine ⟨rfl, ?_⟩
    rw [redis_Delete_data, redis_Delete_data]
    simp
  · intro b k n
    rfl
  · intro r k n
    rfl

/-- Witness for C6: deleting "b" from caches that hold only "a". -/
theorem delete_absent_idempotent_witness :
    (singleton "a" (⟨some 1, 50⟩ : item Nat)) "b" = none
    ∧ (BuildInLocalCache.mk (singleton "a" (⟨some 1, 50⟩ : item Nat)) ⟨(), []⟩).Delete "b"
        = (BuildInLocalCache.mk (singleton "a" ⟨some 1, 50⟩) ⟨(), []⟩, none)
    ∧ ((RedisCache.mk (singleton "a" (⟨some 1, 50⟩ : item Nat)) ⟨(), []⟩).Delete
          (downClient Nat) "b").1.data = singleton "a" ⟨some 1, 50⟩ :=
  have h : (singleton "a" (⟨some 1, 50⟩ : item Nat)) "b" = none := by decide
  ⟨h,
   (delete_absent_idempotent (downClient Nat)
      (BuildInLocalCache.mk (singleton "a" ⟨some 1, 50⟩) ⟨(), []⟩)
      (RedisCache.mk (singleton "a" ⟨some 1, 50⟩) ⟨(), []⟩) "b" h h).1,
   (delete_absent_idempotent (downClient Nat)
      (BuildInLocalCache.mk (singleton "a" ⟨some 1, 50⟩) ⟨(), ([] : List (ClientCall Nat))⟩)
      (RedisCache.mk (singleton "a" ⟨some 1, 50⟩) ⟨(), []⟩) "b" h h).2.1.2⟩

/-! ## Set and the secondary store -/

/-- C7: in both drivers `Set` returns a nil error for every key, value and ttl
and the index then holds `(val, now + ttl)` under the key; in the redis driver
this is so for every client behaviour, and in particular for the client whose put
returns an error. -/
theorem set_returns_nil_and_writes {S R V : Type} (gc : GoCache S V) (cl : Cmdable R V)
    (blc : BuildInLocalCache S V) (rc : RedisCache R V) (now : Time) (key : String)
    (val : any V) (ttl : Duration) :
    ((BuildInLocalCache.Set gc blc now key val ttl).2 = none
      ∧ (BuildInLocalCache.Set gc blc now key val ttl).1.data key
          = some ⟨val, Time.Add now ttl⟩)
    ∧ ((RedisCache.Set cl rc now key val ttl).2 = none
      ∧ (RedisCache.Set cl rc now key val ttl).1.data key = some ⟨val, Time.Add now ttl⟩)
    ∧ (∀ ru : RedisCache Unit V,
        ((downClient V).Set ru.client.store key val ttl).2 = some "connection refused"
        ∧ (RedisCache.Set (downClient V) ru now key val ttl).2 = none
        ∧ (RedisCache.Set (downClient V) ru now key val ttl).1.data key
            = some ⟨val, Time.Add now ttl⟩) := by
  refine ⟨⟨rfl, local_Get_Set_data gc blc now key val ttl⟩,
    ⟨rfl, redis_Get_Set_data cl rc now key val ttl⟩, ?_⟩
  intro ru
  exact ⟨rfl, rfl, redis_Get_Set_data (downClient V) ru now key val ttl⟩

/-! ## The redis driver and the remote store -/

/-- C9: `RedisCache.Get` does not depend on the remote store: for one index and
any two client handles (store state and command history) it returns the same
value and error and produces the same index, and it leaves the handle as it was,
so it issues no command, in particular no read; a freshly constructed cache
answers NotFound whatever the remote store holds, also behind a client that
would answer a read of the key with a live value. -/
theorem redis_get_ignores_remote {R V : Type} (data : String → Option (item V))
    (h1 h2 : Handle R V) (key : String) (now : Time) :
    ((RedisCache.mk data h1).Get now key).2 = ((RedisCache.mk data h2).Get now key).2
    ∧ ((RedisCache.mk data h1).Get now key).1.data
        = ((RedisCache.mk data h2).Get now key).1.data
    ∧ ((RedisCache.mk data h1).Get now key).1.client = h1
    ∧ (∀ r0 : R, (NewRedisCache r0 : RedisCache R V).Get now key
        = (NewRedisCache r0, none, some CacheError.ErrNotFound))
    ∧ (∀ v : V, ((constClient v).Get () key).2 = (some v, none)
        ∧ (NewRedisCache () : RedisCache Unit V).Get now key
          = (NewRedisCache (), none, some CacheError.ErrNotFound)) := by
  refine ⟨?_, ?_, ?_, ?_, ?_⟩
  · unfold RedisCache.Get RedisCache.GetFrom
    cases hd : data key with
    | none => simp [hd]
    | some res =>
      by_cases hb : RedisCache.deadlineBefore res now = true <;> simp [hd, hb]
  · unfold RedisCache.Get RedisCache.GetFrom
    cases hd : data key with
    | none => simp [hd]
    | some res =>
      by_cases hb : RedisCache.deadlineBefore res now = true <;>
        simp [hd, hb, redis_delete_data]
  · unfold RedisCache.Get RedisCache.GetFrom
    cases hd : data key with
    | none => simp [hd]
    | some res =>
      by_cases hb : RedisCache.deadlineBefore res now = true <;>
        simp [hd, hb, redis_delete_client]
  · intro r0
    simp [RedisCache.Get, RedisCache.GetFrom, NewRedisCache]
  · intro v
    refine ⟨rfl, ?_⟩
    simp [RedisCache.Get, RedisCache.GetFrom, NewRedisCache]

/-- C10: every `RedisCache.Delete(key)` returns a nil error and issues exactly
one command to the client, a delete of `key`, whether or not the index has an
entry for the key and whatever the client answers; so also with the client whose
delete fails. -/
theorem redis_delete_issues_one_del {R V : Type} (cl : Cmdable R V) (rc : RedisCache R V)
    (key : String) :
    (rc.Delete cl key).2 = none
    ∧ (rc.Delete cl key).1.client.issued = rc.client.issued ++ [ClientCall.Del key]
    ∧ (rc.Delete cl key).1.client.store = (cl.Del rc.client.store key).1
    ∧ (∀ ru : RedisCache Unit V,
        ((downClient V).Del ru.client.store key).2.2 = some "connection refused"
        ∧ (ru.Delete (downClient V) key).2 = none
        ∧ (ru.Delete (downClient V) key).1.client.issued
            = ru.client.issued ++ [ClientCall.Del key]) := by
  have hiss : ∀ {Q : Type} (c : Cmdable Q V) (r : RedisCache Q V),
      (r.Delete c key).1.client.issued = r.client.issued ++ [ClientCall.Del key] := by
    intro Q c r
    simp [RedisCache.Delete, Cmdable.call_Del, redis_delete_client]
  refine ⟨rfl, hiss cl rc, ?_, ?_⟩
  · simp [RedisCache.Delete, Cmdable.call_Del, redis_delete_client]
  · intro ru
    exact ⟨rfl, rfl, hiss (downClient V) ru⟩

/-! ## Liveness against the deadline -/

theorem redis_Get_eq {R V : Type} (rc : RedisCache R V) (now : Time) (key : String) :
    rc.Get now key =
      match rc.data key with
      | none => (rc, none, some CacheError.ErrNotFound)
      | some res =>
        if RedisCache.deadlineBefore res now then
          (rc.delete key, none, some CacheError.ErrNotFound)
        else (rc, res.val, none) := rfl

theorem local_Get_entry {S V : Type} (blc : BuildInLocalCache S V) (now : Time)
    (key : String) (it : item V) (h : blc.data key = some it) (hd : it.deadline ≠ 0) :
    blc.Get now key =
      if it.deadline < now then (blc.delete key, none, some CacheError.ErrNotFound)
      else (blc, it.val, none) := by
  rw [local_Get_eq, h]
  by_cases hlt : it.deadline < now
  · have hb : BuildInLocalCache.deadlineBefore it now = true :=
      (local_deadlineBefore_iff it now).mpr ⟨hd, hlt⟩
    simp [hb, hlt]
  · have hb : BuildInLocalCache.deadlineBefore it now = false := by
      rw [Bool.eq_false_iff, Ne, local_deadlineBefore_iff]
      exact fun hh => hlt hh.2
    simp [hb, hlt]

theorem redis_Get_entry {R V : Type} (rc : RedisCache R V) (now : Time)
    (key : String) (it : item V) (h : rc.data key = some it) :
    rc.Get now key =
      if it.deadline < now then (rc.delete key, none, some CacheError.ErrNotFound)
      else (rc, it.val, none) := by
  rw [redis_Get_eq, h]
  by_cases hlt : it.deadline < now
  · have hb : RedisCache.deadlineBefore it now = true :=
      (redis_deadlineBefore_iff it now).mpr hlt
    simp [hb, hlt]
  · have hb : RedisCache.deadlineBefore it now = false := by
      rw [Bool.eq_false_iff, Ne, redis_deadlineBefore_iff]
      exact hlt
    simp [hb, hlt]

/-- C3, as stated, fails: an entry set at time 90 with ttl 10 has deadline 100,
and `Get` at exactly 100 returns its value with a nil error in both drivers; it
does not fail with NotFound. -/
theorem get_at_deadline_returns_value :
    ((BuildInLocalCache.Set (nullGoCache Nat) (NewBuildInLocalCache ()) 90 "k" (some 7)
        10).1.data "k" = some ⟨some 7, 100⟩
      ∧ ((BuildInLocalCache.Set (nullGoCache Nat) (NewBuildInLocalCache ()) 90 "k" (some 7)
        10).1.Get 100 "k").2 = (some 7, none)
      ∧ ((BuildInLocalCache.Set (nullGoCache Nat) (NewBuildInLocalCache ()) 90 "k" (some 7)
        10).1.Get 100 "k").2 ≠ (none, some CacheError.ErrNotFound))
    ∧ ((RedisCache.Set (downClient Nat) (NewRedisCache ()) 90 "k" (some 7) 10).1.data "k"
        = some ⟨some 7, 100⟩
      ∧ ((RedisCache.Set (downClient Nat) (NewRedisCache ()) 90 "k" (some 7) 10).1.Get
        100 "k").2 = (some 7, none)
      ∧ ((RedisCache.Set (downClient Nat) (NewRedisCache ()) 90 "k" (some 7) 10).1.Get
        100 "k").2 ≠ (none, some CacheError.ErrNotFound)) := by
  decide

/-- C3, amended: in both drivers, for an entry of the index with a non-zero
deadline `d` and every read time `now`, `Get` returns the entry's value with a
nil error if and only if `now ≤ d`, and fails with NotFound (nil value) if and
only if `d < now`; a `Get` at exactly `now = d` returns the value and leaves the
cache unchanged. -/
theorem get_live_iff_not_after_deadline {S R V : Type} (blc : BuildInLocalCache S V)
    (rc : RedisCache R V) (key : String) (it : item V) (now : Time)
    (hl : blc.data key = some it) (hr : rc.data key = some it) (hd : it.deadline ≠ 0) :
    (((blc.Get now key).2 = (it.val, none) ↔ now ≤ it.deadline)
      ∧ ((blc.Get now key).2 = (none, some CacheError.ErrNotFound) ↔ it.deadline < now)
      ∧ blc.Get it.deadline key = (blc, it.val, none))
    ∧ (((rc.Get now key).2 = (it.val, none) ↔ now ≤ it.deadline)
      ∧ ((rc.Get now key).2 = (none, some CacheError.ErrNotFound) ↔ it.deadline < now)
      ∧ rc.Get it.deadline key = (rc, it.val, none)) := by
  refine ⟨⟨?_, ?_, ?_⟩, ⟨?_, ?_, ?_⟩⟩
  · rw [local_Get_entry blc now key it hl hd]
    by_cases hlt : it.deadline < now
    · simp [hlt]
    · simp [hlt, not_lt.mp hlt]
  · rw [local_Get_entry blc now key it hl hd]
    by_cases hlt : it.deadline < now
    · simp [hlt]
    · simp [hlt]
  · rw [local_Get_entry blc it.deadline key it hl hd]
    simp
  · rw [redis_Get_entry rc now key it hr]
    by_cases hlt : it.deadline < now
    · simp [hlt]
    · simp [hlt, not_lt.mp hlt]
  · rw [redis_Get_entry rc now key it hr]
    by_cases hlt : it.deadline < now
    · simp [hlt]
    · simp [hlt]
  · rw [redis_Get_entry rc it.deadline key it hr]
    simp

/-- Witness for C3 amended: the entry `("k", 7, deadline 100)` read at time 100. -/
theorem get_live_iff_not_after_deadline_witness :
    (singleton "k" (⟨some 7, 100⟩ : item Nat)) "k" = some ⟨some 7, 100⟩
    ∧ (100 : Time) ≠ 0
    ∧ (BuildInLocalCache.mk (singleton "k" (⟨some 7, 100⟩ : item Nat)) ⟨(), []⟩).Get 100 "k"
        = (BuildInLocalCache.mk (singleton "k" ⟨some 7, 100⟩) ⟨(), []⟩, some 7, none)
    ∧ (RedisCache.mk (singleton "k" (⟨some 7, 100⟩ : item Nat)) ⟨(), []⟩).Get 100 "k"
        = (RedisCache.mk (singleton "k" ⟨some 7, 100⟩) ⟨(), []⟩, some 7, none) :=
  have h : (singleton "k" (⟨some 7, 100⟩ : item Nat)) "k" = some ⟨some 7, 100⟩ := by decide
  ⟨h, by decide,
   (get_live_iff_not_after_deadline
      (BuildInLocalCache.mk (singleton "k" ⟨some 7, 100⟩) ⟨(), ([] : List (ClientCall Nat))⟩)
      (RedisCache.mk (singleton "k" ⟨some 7, 100⟩) ⟨(), ([] : List (ClientCall Nat))⟩)
      "k" ⟨some 7, 100⟩ 100 h h (by decide)).1.2.2,
   (get_live_iff_not_after_deadline
      (BuildInLocalCache.mk (singleton "k" ⟨some 7, 100⟩) ⟨(), ([] : List (ClientCall Nat))⟩)
      (RedisCache.mk (singleton "k" ⟨some 7, 100⟩) ⟨(), ([] : List (ClientCall Nat))⟩)
      "k" ⟨some 7, 100⟩ 100 h h (by decide)).2.2.2⟩

/-! ## Sequences of calls: what happens to one key -/

theorem update_none_cases {V : Type} (d : String → Option (item V)) (k key : String) :
    Function.update d k none key = none ∨ Function.update d k none key = d key := by
  by_cases h : key = k
  · left
    rw [h]
    exact Function.update_same k none d
  · right
    exact Function.update_noteq h none d

theorem local_Get_data_cases {S V : Type} (blc : BuildInLocalCache S V) (now : Time)
    (k : String) :
    (blc.Get now k).1.data = blc.data ∨ (blc.Get now k).1.data = Function.update blc.data k none := by
  rw [local_Get_eq]
  cases h : blc.data k with
  | none => exact Or.inl rfl
  | some res =>
    by_cases hb : BuildInLocalCache.deadlineBefore res now = true
    · right
      simp [hb, local_delete_data]
    · left
      simp [hb]

theorem redis_Get_data_cases {R V : Type} (rc : RedisCache R V) (now : Time)
    (k : String) :
    (rc.Get now k).1.data = rc.data ∨ (rc.Get now k).1.data = Function.update rc.data k none := by
  rw [redis_Get_eq]
  cases h : rc.data k with
  | none => exact Or.inl rfl
  | some res =>
    by_cases hb : RedisCache.deadlineBefore res now = true
    · right
      simp [hb, redis_delete_data]
    · left
      simp [hb]

theorem local_step_key {S V : Type} (gc : GoCache S V) (blc : BuildInLocalCache S V)
    (c : Call V) (key : String) (hc : c.setsKey key = false) :
    (BuildInLocalCache.step gc blc c).1.data key = none
      ∨ (BuildInLocalCache.step gc blc c).1.data key = blc.data key := by
  cases c with
  | Set now k val expiration =>
    right
    have hk : key ≠ k := by
      intro h
      simp [Call.setsKey, h] at hc
    simp [BuildInLocalCache.step, BuildInLocalCache.Set, Function.update_noteq hk]
  | Get now k =>
    rcases local_Get_data_cases blc now k with h | h
    · right
      simp [BuildInLocalCache.step, h]
    · simp only [BuildInLocalCache.step, h]
      exact update_none_cases blc.data k key
  | Delete now k =>
    simp only [BuildInLocalCache.step, BuildInLocalCache.Delete, local_delete_data]
    exact update_none_cases blc.data k key

theorem redis_step_key {R V : Type} (cl : Cmdable R V) (rc : RedisCache R V)
    (c : Call V) (key : String) (hc : c.setsKey key = false) :
    (RedisCache.step cl rc c).1.data key = none
      ∨ (RedisCache.step cl rc c).1.data key = rc.data key := by
  cases c with
  | Set now k val expiration =>
    right
    have hk : key ≠ k := by
      intro h
      simp [Call.setsKey, h] at hc
    simp [RedisCache.step, RedisCache.Set, Function.update_noteq hk]
  | Get now k =>
    rcases redis_Get_data_cases rc now k with h | h
    · right
      simp [RedisCache.step, h]
    · simp only [RedisCache.step, h]
      exact update_none_cases rc.data k key
  | Delete now k =>
    simp only [RedisCache.step, redis_Delete_data]
    exact update_none_cases rc.data k key

theorem local_exec_key {S V : Type} (gc : GoCache S V) (key : String) (mid : List (Call V)) :
    ∀ (blc : BuildInLocalCache S V), (∀ c ∈ mid, Call.setsKey c key = false) →
      ((BuildInLocalCache.exec gc blc mid).data key = none
        ∨ (BuildInLocalCache.exec gc blc mid).data key = blc.data key) := by
  induction mid with
  | nil =>
    intro blc _
    exact Or.inr rfl
  | cons c cs ih =>
    intro blc hmid
    have hc : Call.setsKey c key = false := hmid c (List.mem_cons_self c cs)
    have hcs : ∀ x ∈ cs, Call.setsKey x key = false :=
      fun x hx => hmid x (List.mem_cons_of_mem c hx)
    rcases ih (BuildInLocalCache.step gc blc c).1 hcs with h | h
    · exact Or.inl h
    · rcases local_step_key gc blc c key hc with h2 | h2
      · exact Or.inl (h.trans h2)
      · exact Or.inr (h.trans h2)

theorem redis_exec_key {R V : Type} (cl : Cmdable R V) (key : String) (mid : List (Call V)) :
    ∀ (rc : RedisCache R V), (∀ c ∈ mid, Call.setsKey c key = false) →
      ((RedisCache.exec cl rc mid).data key = none
        ∨ (RedisCache.exec cl rc mid).data key = rc.data key) := by
  induction mid with
  | nil =>
    intro rc _
    exact Or.inr rfl
  | cons c cs ih =>
    intro rc hmid
    have hc : Call.setsKey c key = false := hmid c (List.mem_cons_self c cs)
    have hcs : ∀ x ∈ cs, Call.setsKey x key = false :=
      fun x hx => hmid x (List.mem_cons_of_mem c hx)
    rcases ih (RedisCache.step cl rc c).1 hcs with h | h
    · exact Or.inl h
    · rcases redis_step_key cl rc c key hc with h2 | h2
      · exact Or.inl (h.trans h2)
      · exact Or.inr (h.trans h2)

/-! ## Get after the ttl has passed -/

theorem local_Get_gone {S V : Type} (blc : BuildInLocalCache S V) (now : Time)
    (key : String) (it : item V) (h : blc.data key = none ∨ blc.data key = some it)
    (hd : it.deadline ≠ 0) (hlt : it.deadline < now) :
    (blc.Get now key).2 = (none, some CacheError.ErrNotFound)
      ∧ (blc.Get now key).1.data = Function.update blc.data key none := by
  rcases h with h | h
  · rw [local_Get_eq, h]
    refine ⟨rfl, ?_⟩
    simp [← h]
  · rw [local_Get_entry blc now key it h hd]
    simp [hlt, local_delete_data]

theorem redis_Get_gone {R V : Type} (rc : RedisCache R V) (now : Time)
    (key : String) (it : item V) (h : rc.data key = none ∨ rc.data key = some it)
    (hlt : it.deadline < now) :
    (rc.Get now key).2 = (none, some CacheError.ErrNotFound)
      ∧ (rc.Get now key).1.data = Function.update rc.data key none := by
  rcases h with h | h
  · rw [redis_Get_eq, h]
    refine ⟨rfl, ?_⟩
    simp [← h]
  · rw [redis_Get_entry rc now key it h]
    simp [hlt, redis_delete_data]

theorem deadline_of_now_ne_zero (now : Time) (ttl : Duration)
    (hclock : Time.isNow now = true) (httl : Duration.isInt64 ttl = true) :
    Time.Add now ttl ≠ 0 := by
  have h1 : unixEpoch ≤ now := by simpa [Time.isNow] using hclock
  have h2 : -9223372036854775808 ≤ ttl ∧ ttl ≤ 9223372036854775807 := by
    simpa [Duration.isInt64] using httl
  have key : ∀ a b : Int, 62135596800000000000 ≤ a → -9223372036854775808 ≤ b →
      a + b ≠ 0 := by
    intro a b ha hb
    omega
  exact key now ttl h1 h2.1

/-- C2: in both drivers, after `Set(key, val, ttl)` at a clock reading `t`, for
any ttl a `time.Duration` can hold (positive, zero or negative), followed by any
calls none of which is a `Set` of that key, a `Get(key)` at any time
`t' > t + ttl` fails with NotFound, returns a nil value and leaves the index
without the key and otherwise as it was. -/
theorem get_after_ttl_not_found {S R V : Type} (gc : GoCache S V) (cl : Cmdable R V)
    (blc : BuildInLocalCache S V) (rc : RedisCache R V) (key : String) (val : any V)
    (ttl : Duration) (t t' : Time) (mid : List (Call V))
    (hclock : Time.isNow t = true) (httl : Duration.isInt64 ttl = true)
    (hmid : ∀ c ∈ mid, Call.setsKey c key = false) (hlate : Time.Add t ttl < t') :
    (((BuildInLocalCache.exec gc (BuildInLocalCache.Set gc blc t key val ttl).1 mid).Get
          t' key).2 = (none, some CacheError.ErrNotFound)
      ∧ ((BuildInLocalCache.exec gc (BuildInLocalCache.Set gc blc t key val ttl).1 mid).Get
          t' key).1.data
        = Function.update
            (BuildInLocalCache.exec gc (BuildInLocalCache.Set gc blc t key val ttl).1 mid).data
            key none
      ∧ ((BuildInLocalCache.exec gc (BuildInLocalCache.Set gc blc t key val ttl).1 mid).Get
          t' key).1.data key = none)
    ∧ (((RedisCache.exec cl (RedisCache.Set cl rc t key val ttl).1 mid).Get t' key).2
        = (none, some CacheError.ErrNotFound)
      ∧ ((RedisCache.exec cl (RedisCache.Set cl rc t key val ttl).1 mid).Get t' key).1.data
        = Function.update (RedisCache.exec cl (RedisCache.Set cl rc t key val ttl).1 mid).data
            key none
      ∧ ((RedisCache.exec cl (RedisCache.Set cl rc t key val ttl).1 mid).Get t' key).1.data key
        = none) := by
  have hz : Time.Add t ttl ≠ 0 := deadline_of_now_ne_zero t ttl hclock httl
  constructor
  · have h := local_exec_key gc key mid (BuildInLocalCache.Set gc blc t key val ttl).1 hmid
    rw [local_Get_Set_data] at h
    have hg := local_Get_gone _ t' key ⟨val, Time.Add t ttl⟩ h hz hlate
    refine ⟨hg.1, hg.2, ?_⟩
    rw [hg.2]
    simp
  · have h := redis_exec_key cl key mid (RedisCache.Set cl rc t key val ttl).1 hmid
    rw [redis_Get_Set_data] at h
    have hg := redis_Get_gone _ t' key ⟨val, Time.Add t ttl⟩ h hlate
    refine ⟨hg.1, hg.2, ?_⟩
    rw [hg.2]
    simp

/-- Witness for C2: `Set("k", 1, -5)` at a clock reading in the year 2026, then a
`Get` of another key and a `Set` of another key, then `Get("k")` at the very
reading of the `Set`, which is later than its deadline. -/
theorem get_after_ttl_not_found_witness :
    Time.isNow 63900000000000000000 = true
    ∧ Duration.isInt64 (-5) = true
    ∧ ((BuildInLocalCache.exec (nullGoCache Nat)
        (BuildInLocalCache.Set (nullGoCache Nat) (NewBuildInLocalCache ())
          63900000000000000000 "k" (some 1) (-5)).1
        [Call.Get 63900000000000000000 "j",
         Call.Set 63900000000000000000 "j" (some 2) 1]).Get 63900000000000000000 "k").2
      = (none, some CacheError.ErrNotFound)
    ∧ ((RedisCache.exec (downClient Nat)
        (RedisCache.Set (downClient Nat) (NewRedisCache ())
          63900000000000000000 "k" (some 1) (-5)).1
        [Call.Get 63900000000000000000 "j",
         Call.Set 63900000000000000000 "j" (some 2) 1]).Get 63900000000000000000 "k").2
      = (none, some CacheError.ErrNotFound) :=
  ⟨by decide, by decide,
   (get_after_ttl_not_found (nullGoCache Nat) (downClient Nat) (NewBuildInLocalCache ())
      (NewRedisCache ()) "k" (some 1) (-5) 63900000000000000000 63900000000000000000
      [Call.Get 63900000000000000000 "j", Call.Set 63900000000000000000 "j" (some 2) 1]
      (by decide) (by decide) (by decide) (by decide)).1.1,
   (get_after_ttl_not_found (nullGoCache Nat) (downClient Nat) (NewBuildInLocalCache ())
      (NewRedisCache ()) "k" (some 1) (-5) 63900000000000000000 63900000000000000000
      [Call.Get 63900000000000000000 "j", Call.Set 63900000000000000000 "j" (some 2) 1]
      (by decide) (by decide) (by decide) (by decide)).2.1⟩

/-! ## The two drivers side by side -/

theorem update_none_some {V : Type} (d : String → Option (item V)) (k k2 : String)
    (it : item V) (h : Function.update d k none k2 = some it) : d k2 = some it := by
  by_cases hk : k2 = k
  · rw [hk, Function.update_same] at h
    exact absurd h (by simp)
  · rwa [Function.update_noteq hk] at h

theorem local_redis_step_agree {S R V : Type} (gc : GoCache S V) (cl : Cmdable R V)
    (blc : BuildInLocalCache S V) (rc : RedisCache R V) (c : Call V)
    (hdata : blc.data = rc.data)
    (hinv : ∀ k it, rc.data k = some it → it.deadline ≠ 0)
    (hc : Call.zeroDeadline c = false) :
    (BuildInLocalCache.step gc blc c).2 = (RedisCache.step cl rc c).2
    ∧ (BuildInLocalCache.step gc blc c).1.data = (RedisCache.step cl rc c).1.data
    ∧ (∀ k it, (RedisCache.step cl rc c).1.data k = some it → it.deadline ≠ 0) := by
  cases c with
  | Set now key val expiration =>
    refine ⟨rfl, ?_, ?_⟩
    · simp [BuildInLocalCache.step, RedisCache.step, BuildInLocalCache.Set, RedisCache.Set,
        hdata]
    · intro k it hk
      have hz : Time.Add now expiration ≠ 0 := by
        intro h0
        simp [Call.zeroDeadline, Time.IsZero, h0] at hc
      by_cases hkk : k = key
      · rw [hkk] at hk
        simp only [RedisCache.step, RedisCache.Set, Function.update_same,
          Option.some.injEq] at hk
        rw [← hk]
        exact hz
      · simp only [RedisCache.step, RedisCache.Set, Function.update_noteq hkk] at hk
        exact hinv k it hk
  | Get now key =>
    simp only [BuildInLocalCache.step, RedisCache.step]
    cases hr : rc.data key with
    | none =>
      have hl : blc.data key = none := by rw [hdata, hr]
      rw [local_Get_eq, redis_Get_eq, hl, hr]
      exact ⟨rfl, hdata, hinv⟩
    | some it =>
      have hl : blc.data key = some it := by rw [hdata, hr]
      have hd : it.deadline ≠ 0 := hinv key it hr
      rw [local_Get_entry blc now key it hl hd, redis_Get_entry rc now key it hr]
      by_cases hlt : it.deadline < now
      · rw [if_pos hlt, if_pos hlt]
        refine ⟨rfl, ?_, ?_⟩
        · rw [local_delete_data, redis_delete_data, hdata]
        · intro k it2 hk
          rw [redis_delete_data] at hk
          exact hinv k it2 (update_none_some rc.data key k it2 hk)
      · rw [if_neg hlt, if_neg hlt]
        exact ⟨rfl, hdata, hinv⟩
  | Delete now key =>
    simp only [BuildInLocalCache.step, RedisCache.step]
    refine ⟨rfl, ?_, ?_⟩
    · rw [redis_Delete_data]
      simp [BuildInLocalCache.Delete, local_delete_data, hdata]
    · intro k it hk
      rw [redis_Delete_data] at hk
      exact hinv k it (update_none_some rc.data key k it hk)

theorem local_redis_run_agree {S R V : Type} (gc : GoCache S V) (cl : Cmdable R V)
    (calls : List (Call V)) :
    ∀ (blc : BuildInLocalCache S V) (rc : RedisCache R V), blc.data = rc.data →
      (∀ k it, rc.data k = some it → it.deadline ≠ 0) →
      (∀ c ∈ calls, Call.zeroDeadline c = false) →
      BuildInLocalCache.run gc blc calls = RedisCache.run cl rc calls := by
  induction calls with
  | nil =>
    intro blc rc _ _ _
    rfl
  | cons c cs ih =>
    intro blc rc hdata hinv hcalls
    have hc : Call.zeroDeadline c = false := hcalls c (List.mem_cons_self c cs)
    have hcs : ∀ x ∈ cs, Call.zeroDeadline x = false :=
      fun x hx => hcalls x (List.mem_cons_of_mem c hx)
    obtain ⟨hout, hd, hi⟩ := local_redis_step_agree gc cl blc rc c hdata hinv hc
    simp only [BuildInLocalCache.run, RedisCache.run]
    rw [hout, hd, ih (BuildInLocalCache.step gc blc c).1 (RedisCache.step cl rc c).1 hd hi hcs]

theorem wellTimed_not_zeroDeadline {V : Type} (c : Call V)
    (h : Call.wellTimed c = true) : Call.zeroDeadline c = false := by
  cases c with
  | Set now key val expiration =>
    have h2 : Time.isNow now = true ∧ Duration.isInt64 expiration = true := by
      simpa [Call.wellTimed] using h
    have hz := deadline_of_now_ne_zero now expiration h2.1 h2.2
    simp [Call.zeroDeadline, Time.IsZero, hz]
  | Get now key => rfl
  | Delete now key => rfl

/-- C8: for every finite sequence of timestamped `Set`, `Get` and `Delete`
calls, each `Set` with a clock reading and a ttl that `time.Now()` and
`time.Duration` can give, run one after the other on a fresh
`BuildInLocalCache` and on a fresh `RedisCache`, every call returns the same
value and the same error in both and after every call both indexes are the same
mapping from key to (value, deadline), whatever the two secondary stores do. -/
theorem drivers_agree {S R V : Type} (gc : GoCache S V)
    (cl : Cmdable R V) (s0 : S) (r0 : R) (calls : List (Call V))
    (hcalls : ∀ c ∈ calls, Call.wellTimed c = true) :
    BuildInLocalCache.run gc (NewBuildInLocalCache s0) calls
      = RedisCache.run cl (NewRedisCache r0) calls := by
  apply local_redis_run_agree gc cl calls (NewBuildInLocalCache s0) (NewRedisCache r0) rfl
  · intro k it hk
    simp [NewRedisCache] at hk
  · intro c hc
    exact wellTimed_not_zeroDeadline c (hcalls c hc)

/-- Witness for C8: with clock readings in the year 2026, a set, a live read, a
late read, a set with a negative ttl and one with ttl zero on the empty key, a
delete and a read of the deleted key; the go-cache keeps nothing and the redis
client always fails. -/
theorem drivers_agree_witness :
    BuildInLocalCache.run (nullGoCache Nat) (NewBuildInLocalCache ())
        [Call.Set 63900000000000000090 "k" (some 1) 10, Call.Get 63900000000000000095 "k",
         Call.Get 63900000000000000101 "k", Call.Set 63900000000000000102 "k" (some 3) (-5),
         Call.Get 63900000000000000102 "k",
         Call.Set 63900000000000000103 "" none 0, Call.Delete 63900000000000000104 "",
         Call.Get 63900000000000000105 ""]
      = RedisCache.run (downClient Nat) (NewRedisCache ())
        [Call.Set 63900000000000000090 "k" (some 1) 10, Call.Get 63900000000000000095 "k",
         Call.Get 63900000000000000101 "k", Call.Set 63900000000000000102 "k" (some 3) (-5),
         Call.Get 63900000000000000102 "k",
         Call.Set 63900000000000000103 "" none 0, Call.Delete 63900000000000000104 "",
         Call.Get 63900000000000000105 ""] :=
  drivers_agree (nullGoCache Nat) (downClient Nat) () ()
    [Call.Set 63900000000000000090 "k" (some 1) 10, Call.Get 63900000000000000095 "k",
     Call.Get 63900000000000000101 "k", Call.Set 63900000000000000102 "k" (some 3) (-5),
     Call.Get 63900000000000000102 "k",
     Call.Set 63900000000000000103 "" none 0, Call.Delete 63900000000000000104 "",
     Call.Get 63900000000000000105 ""] (by decide)

/-! ## Get of an expired entry in the redis driver -/

/-- C11, as stated, fails: after `Set("k", 1, 10)` at time 90 the only command
the redis driver has issued is that put; `Get("k")` at time 101 finds the entry
expired, removes it from the index and fails with NotFound, and the command
history is still the put alone: no remote delete was issued. -/
theorem redis_get_expired_issues_no_del :
    (RedisCache.Set (downClient Nat) (NewRedisCache ()) 90 "k" (some 1) 10).1.data "k"
      = some ⟨some 1, 100⟩
    ∧ ((RedisCache.Set (downClient Nat) (NewRedisCache ()) 90 "k" (some 1) 10).1.Get
        101 "k").2 = (none, some CacheError.ErrNotFound)
    ∧ ((RedisCache.Set (downClient Nat) (NewRedisCache ()) 90 "k" (some 1) 10).1.Get
        101 "k").1.data "k" = none
    ∧ ((RedisCache.Set (downClient Nat) (NewRedisCache ()) 90 "k" (some 1) 10).1.Get
        101 "k").1.client.issued = [ClientCall.Set "k" (some 1) 10]
    ∧ ClientCall.Del "k" ∉ ((RedisCache.Set (downClient Nat) (NewRedisCache ()) 90 "k"
        (some 1) 10).1.Get 101 "k").1.client.issued := by
  decide

/-- C11, amended: in the redis driver, whenever `Get` finds an entry for the key
that is present but expired (`deadline < now`), it removes the entry from the
local index and fails with NotFound and a nil value; it issues no command to
the remote store (the client handle, store state and command history, is left
as it was). -/
theorem redis_get_expired_local_only {R V : Type} (rc : RedisCache R V) (key : String)
    (it : item V) (now : Time) (hr : rc.data key = some it) (hexp : it.deadline < now) :
    (rc.Get now key).2 = (none, some CacheError.ErrNotFound)
    ∧ (rc.Get now key).1.data = Function.update rc.data key none
    ∧ (rc.Get now key).1.data key = none
    ∧ (rc.Get now key).1.client = rc.client := by
  rw [redis_Get_entry rc now key it hr, if_pos hexp]
  refine ⟨rfl, redis_delete_data rc key, ?_, redis_delete_client rc key⟩
  simp [redis_delete_data]

/-- Witness for C11 amended: the entry `("k", 1, deadline 100)` read at 101. -/
theorem redis_get_expired_local_only_witness :
    (singleton "k" (⟨some 1, 100⟩ : item Nat)) "k" = some ⟨some 1, 100⟩
    ∧ (100 : Time) < 101
    ∧ ((RedisCache.mk (singleton "k" (⟨some 1, 100⟩ : item Nat))
        ⟨(), [ClientCall.Set "k" (some 1) 10]⟩).Get 101 "k").1.client
      = ⟨(), [ClientCall.Set "k" (some 1) 10]⟩ :=
  have h : (singleton "k" (⟨some 1, 100⟩ : item Nat)) "k" = some ⟨some 1, 100⟩ := by decide
  ⟨h, by decide,
   (redis_get_expired_local_only
      (RedisCache.mk (singleton "k" ⟨some 1, 100⟩) ⟨(), [ClientCall.Set "k" (some 1) 10]⟩)
      "k" ⟨some 1, 100⟩ 101 h (by decide)).2.2.2⟩

/-! ## Get with a Set between its two sections -/

/-- C12, the code at the failing input: the shared-lock read of `Get("k")` sees
the entry `(1, deadline 100)`, the clock reads 150, and before `Get` takes the
exclusive lock a `Set("k", 2, 1000)` at time 149 refreshes the entry to
`(2, deadline 1149)`.  The redis driver removes the refreshed entry and fails
with NotFound; the local driver, on the same input, returns the value 2 and
keeps the entry. -/
theorem redis_get_deletes_refreshed_entry :
    RedisCache.deadlineBefore (⟨some 1, 100⟩ : item Nat) 150 = true
    ∧ (RedisCache.Set (downClient Nat)
        (RedisCache.Set (downClient Nat) (NewRedisCache ()) 90 "k" (some 1) 10).1
        149 "k" (some 2) 1000).1.data "k" = some ⟨some 2, 1149⟩
    ∧ RedisCache.deadlineBefore (⟨some 2, 1149⟩ : item Nat) 150 = false
    ∧ (RedisCache.GetFrom (some ⟨some 1, 100⟩)
        (RedisCache.Set (downClient Nat)
          (RedisCache.Set (downClient Nat) (NewRedisCache ()) 90 "k" (some 1) 10).1
          149 "k" (some 2) 1000).1 150 "k").2 = (none, some CacheError.ErrNotFound)
    ∧ (RedisCache.GetFrom (some ⟨some 1, 100⟩)
        (RedisCache.Set (downClient Nat)
          (RedisCache.Set (downClient Nat) (NewRedisCache ()) 90 "k" (some 1) 10).1
          149 "k" (some 2) 1000).1 150 "k").1.data "k" = none
    ∧ (BuildInLocalCache.GetFrom (some ⟨some 1, 100⟩)
        (BuildInLocalCache.Set (nullGoCache Nat)
          (BuildInLocalCache.Set (nullGoCache Nat) (NewBuildInLocalCache ()) 90 "k" (some 1)
            10).1
          149 "k" (some 2) 1000).1 150 "k").2 = (some 2, none)
    ∧ (BuildInLocalCache.GetFrom (some ⟨some 1, 100⟩)
        (BuildInLocalCache.Set (nullGoCache Nat)
          (BuildInLocalCache.Set (nullGoCache Nat) (NewBuildInLocalCache ()) 90 "k" (some 1)
            10).1
          149 "k" (some 2) 1000).1 150 "k").1.data "k" = some ⟨some 2, 1149⟩ := by
  decide

/-- C13: in the local driver, when the entry read under the shared lock is
expired at the read time, `Get` reads the key again from the index it finds
under the exclusive lock and (i) fails with NotFound and leaves the cache
unchanged if the key is now absent, (ii) removes the key and fails with NotFound
if the entry read again is still expired, (iii) otherwise returns the value of
the entry read again with a nil error and leaves the cache unchanged; so an
entry that a `Set` in between made live at the read time is returned, not
deleted. -/
theorem local_get_rechecks_under_lock {S V : Type} (gc : GoCache S V)
    (blc : BuildInLocalCache S V) (key : String) (res : item V) (now : Time)
    (hsnap : BuildInLocalCache.deadlineBefore res now = true) :
    (blc.data key = none →
      BuildInLocalCache.GetFrom (some res) blc now key
        = (blc, none, some CacheError.ErrNotFound))
    ∧ (∀ res2, blc.data key = some res2 → BuildInLocalCache.deadlineBefore res2 now = true →
      BuildInLocalCache.GetFrom (some res) blc now key
          = (blc.delete key, none, some CacheError.ErrNotFound)
        ∧ (BuildInLocalCache.GetFrom (some res) blc now key).1.data
          = Function.update blc.data key none)
    ∧ (∀ res2, blc.data key = some res2 → BuildInLocalCache.deadlineBefore res2 now = false →
      BuildInLocalCache.GetFrom (some res) blc now key = (blc, res2.val, none))
    ∧ (∀ (ts : Time) (v2 : any V) (ttl2 : Duration),
      BuildInLocalCache.deadlineBefore (⟨v2, Time.Add ts ttl2⟩ : item V) now = false →
      BuildInLocalCache.GetFrom (some res) (BuildInLocalCache.Set gc blc ts key v2 ttl2).1
          now key
        = ((BuildInLocalCache.Set gc blc ts key v2 ttl2).1, v2, none)) := by
  have hiii : ∀ (b : BuildInLocalCache S V) (res2 : item V), b.data key = some res2 →
      BuildInLocalCache.deadlineBefore res2 now = false →
      BuildInLocalCache.GetFrom (some res) b now key = (b, res2.val, none) := by
    intro b res2 h2 hlive
    simp [BuildInLocalCache.GetFrom, hsnap, h2, hlive]
  refine ⟨?_, ?_, hiii blc, ?_⟩
  · intro habs
    simp [BuildInLocalCache.GetFrom, hsnap, habs]
  · intro res2 h2 hexp
    have hg : BuildInLocalCache.GetFrom (some res) blc now key
        = (blc.delete key, none, some CacheError.ErrNotFound) := by
      simp [BuildInLocalCache.GetFrom, hsnap, h2, hexp]
    refine ⟨hg, ?_⟩
    rw [hg]
    exact local_delete_data blc key
  · intro ts v2 ttl2 hlive
    exact hiii _ ⟨v2, Time.Add ts ttl2⟩ (local_Get_Set_data gc blc ts key v2 ttl2) hlive

/-- Witness for C13: the shared-lock read saw `(1, deadline 100)`, the clock reads
150, and a `Set("k", 2, 1000)` at time 149 came in between. -/
theorem local_get_rechecks_under_lock_witness :
    BuildInLocalCache.deadlineBefore (⟨some 1, 100⟩ : item Nat) 150 = true
    ∧ BuildInLocalCache.GetFrom (some ⟨some 1, 100⟩)
        (BuildInLocalCache.Set (nullGoCache Nat) (NewBuildInLocalCache ()) 149 "k" (some 2)
          1000).1 150 "k"
      = ((BuildInLocalCache.Set (nullGoCache Nat) (NewBuildInLocalCache ()) 149 "k" (some 2)
          1000).1, some 2, none) :=
  ⟨by decide,
   (local_get_rechecks_under_lock (nullGoCache Nat) (NewBuildInLocalCache ()) "k"
      ⟨some 1, 100⟩ 150 (by decide)).2.2.2 149 (some 2) 1000 (by decide)⟩

/-! ## What Set sends to the secondary store and writes to the index -/

/-- C14: in both drivers every `Set(key, val, ttl)` issues exactly one command to
the secondary store, a put with exactly the key, value and ttl it was given (the
store moves by that one put); so also for ttl zero, which is passed on as zero. -/
theorem set_issues_one_put {S R V : Type} (gc : GoCache S V) (cl : Cmdable R V)
    (blc : BuildInLocalCache S V) (rc : RedisCache R V) (now : Time) (key : String)
    (val : any V) (ttl : Duration) :
    ((BuildInLocalCache.Set gc blc now key val ttl).1.client.issued
        = blc.client.issued ++ [ClientCall.Set key val ttl]
      ∧ (BuildInLocalCache.Set gc blc now key val ttl).1.client.store
        = gc.Set blc.client.store key val ttl)
    ∧ ((RedisCache.Set cl rc now key val ttl).1.client.issued
        = rc.client.issued ++ [ClientCall.Set key val ttl]
      ∧ (RedisCache.Set cl rc now key val ttl).1.client.store
        = (cl.Set rc.client.store key val ttl).1)
    ∧ ((BuildInLocalCache.Set gc blc now key val 0).1.client.issued
        = blc.client.issued ++ [ClientCall.Set key val 0]
      ∧ (RedisCache.Set cl rc now key val 0).1.client.issued
        = rc.client.issued ++ [ClientCall.Set key val 0]) :=
  ⟨⟨rfl, rfl⟩, ⟨rfl, rfl⟩, ⟨rfl, rfl⟩⟩

/-- C15: in both drivers `Set` overwrites whatever is there: the index after
`Set(key, v1, ttl1)` at `t1` followed by `Set(key, v2, ttl2)` at `t2` is the index
after `Set(key, v2, ttl2)` at `t2` alone, and the entry under the key is exactly
`(v2, t2 + ttl2)`. -/
theorem set_overwrites {S R V : Type} (gc : GoCache S V) (cl : Cmdable R V)
    (blc : BuildInLocalCache S V) (rc : RedisCache R V) (key : String)
    (v1 v2 : any V) (ttl1 ttl2 : Duration) (t1 t2 : Time) :
    ((BuildInLocalCache.Set gc (BuildInLocalCache.Set gc blc t1 key v1 ttl1).1
          t2 key v2 ttl2).1.data
        = (BuildInLocalCache.Set gc blc t2 key v2 ttl2).1.data
      ∧ (BuildInLocalCache.Set gc (BuildInLocalCache.Set gc blc t1 key v1 ttl1).1
          t2 key v2 ttl2).1.data key = some ⟨v2, Time.Add t2 ttl2⟩)
    ∧ ((RedisCache.Set cl (RedisCache.Set cl rc t1 key v1 ttl1).1 t2 key v2 ttl2).1.data
        = (RedisCache.Set cl rc t2 key v2 ttl2).1.data
      ∧ (RedisCache.Set cl (RedisCache.Set cl rc t1 key v1 ttl1).1
          t2 key v2 ttl2).1.data key = some ⟨v2, Time.Add t2 ttl2⟩) := by
  refine ⟨⟨?_, local_Get_Set_data gc _ t2 key v2 ttl2⟩,
    ⟨?_, redis_Get_Set_data cl _ t2 key v2 ttl2⟩⟩
  · simp [BuildInLocalCache.Set]
  · simp [RedisCache.Set]

/-! ## Several Set calls on one key, in any order -/

theorem local_Get_live {S V : Type} (blc : BuildInLocalCache S V) (now : Time)
    (key : String) (it : item V) (h : blc.data key = some it) (hlive : now ≤ it.deadline) :
    blc.Get now key = (blc, it.val, none) := by
  have hb : BuildInLocalCache.deadlineBefore it now = false := by
    rw [Bool.eq_false_iff, Ne, local_deadlineBefore_iff]
    exact fun hh => absurd hh.2 (not_lt.mpr hlive)
  rw [local_Get_eq, h]
  simp [hb]

theorem redis_Get_live {R V : Type} (rc : RedisCache R V) (now : Time)
    (key : String) (it : item V) (h : rc.data key = some it) (hlive : now ≤ it.deadline) :
    rc.Get now key = (rc, it.val, none) := by
  rw [redis_Get_entry rc now key it h, if_neg (not_lt.mpr hlive)]

theorem local_exec_setCalls {S V : Type} (gc : GoCache S V) (key : String)
    (order : List (SetArgs V)) :
    ∀ (blc : BuildInLocalCache S V),
      (order = [] ∧ BuildInLocalCache.exec gc blc (setCalls key order) = blc)
      ∨ ∃ s ∈ order, (BuildInLocalCache.exec gc blc (setCalls key order)).data key
          = some ⟨s.val, Time.Add s.now s.expiration⟩ := by
  induction order with
  | nil =>
    intro blc
    exact Or.inl ⟨rfl, rfl⟩
  | cons c cs ih =>
    intro blc
    right
    rcases ih (BuildInLocalCache.Set gc blc c.now key c.val c.expiration).1 with h | h
    · refine ⟨c, List.mem_cons_self c cs, ?_⟩
      rw [h.1]
      exact local_Get_Set_data gc blc c.now key c.val c.expiration
    · obtain ⟨s, hs, hd⟩ := h
      exact ⟨s, List.mem_cons_of_mem c hs, hd⟩

theorem redis_exec_setCalls {R V : Type} (cl : Cmdable R V) (key : String)
    (order : List (SetArgs V)) :
    ∀ (rc : RedisCache R V),
      (order = [] ∧ RedisCache.exec cl rc (setCalls key order) = rc)
      ∨ ∃ s ∈ order, (RedisCache.exec cl rc (setCalls key order)).data key
          = some ⟨s.val, Time.Add s.now s.expiration⟩ := by
  induction order with
  | nil =>
    intro rc
    exact Or.inl ⟨rfl, rfl⟩
  | cons c cs ih =>
    intro rc
    right
    rcases ih (RedisCache.Set cl rc c.now key c.val c.expiration).1 with h | h
    · refine ⟨c, List.mem_cons_self c cs, ?_⟩
      rw [h.1]
      exact redis_Get_Set_data cl rc c.now key c.val c.expiration
    · obtain ⟨s, hs, hd⟩ := h
      exact ⟨s, List.mem_cons_of_mem c hs, hd⟩

theorem local_run_setCalls {S V : Type} (gc : GoCache S V) (key : String)
    (order : List (SetArgs V)) :
    ∀ (blc : BuildInLocalCache S V),
      ∀ out ∈ BuildInLocalCache.run gc blc (setCalls key order), out.1 = (none, none) := by
  induction order with
  | nil =>
    intro blc out hout
    simp [setCalls, BuildInLocalCache.run] at hout
  | cons c cs ih =>
    intro blc out hout
    rcases List.mem_cons.mp hout with h | h
    · rw [h]
      rfl
    · exact ih _ out h

theorem redis_run_setCalls {R V : Type} (cl : Cmdable R V) (key : String)
    (order : List (SetArgs V)) :
    ∀ (rc : RedisCache R V),
      ∀ out ∈ RedisCache.run cl rc (setCalls key order), out.1 = (none, none) := by
  induction order with
  | nil =>
    intro rc out hout
    simp [setCalls, RedisCache.run] at hout
  | cons c cs ih =>
    intro rc out hout
    rcases List.mem_cons.mp hout with h | h
    · rw [h]
      rfl
    · exact ih _ out h

/-- C16: for every non-empty list of `Set` calls on one key, all with ttl > 0,
and every order in which they take the exclusive lock (every permutation of the
list), in both drivers each call returns a nil error, and a `Get` of the key
after all of them, at a time before every one of their deadlines, returns with
a nil error a value that is one of the values that were set (and changes
nothing). -/
theorem sets_in_any_order_then_get {S R V : Type} (gc : GoCache S V) (cl : Cmdable R V)
    (blc : BuildInLocalCache S V) (rc : RedisCache R V) (key : String)
    (sets order : List (SetArgs V)) (tg : Time)
    (hne : sets ≠ []) (hord : order.Perm sets)
    (hpos : ∀ s ∈ sets, 0 < s.expiration)
    (hlive : ∀ s ∈ sets, tg < Time.Add s.now s.expiration) :
    ((BuildInLocalCache.run gc blc (setCalls key order)).length = sets.length
      ∧ (∀ out ∈ BuildInLocalCache.run gc blc (setCalls key order), out.1 = (none, none))
      ∧ ∃ s ∈ sets, (BuildInLocalCache.exec gc blc (setCalls key order)).Get tg key
          = (BuildInLocalCache.exec gc blc (setCalls key order), s.val, none))
    ∧ ((RedisCache.run cl rc (setCalls key order)).length = sets.length
      ∧ (∀ out ∈ RedisCache.run cl rc (setCalls key order), out.1 = (none, none))
      ∧ ∃ s ∈ sets, (RedisCache.exec cl rc (setCalls key order)).Get tg key
          = (RedisCache.exec cl rc (setCalls key order), s.val, none)) := by
  have hone : order ≠ [] := by
    intro h
    rw [h] at hord
    exact hne (List.Perm.nil_eq hord).symm
  have hlenL : ∀ (cs : List (Call V)) (b : BuildInLocalCache S V),
      (BuildInLocalCache.run gc b cs).length = cs.length := by
    intro cs
    induction cs with
    | nil => intro b; rfl
    | cons c cs ih => intro b; simp [BuildInLocalCache.run, ih]
  have hlenR : ∀ (cs : List (Call V)) (r : RedisCache R V),
      (RedisCache.run cl r cs).length = cs.length := by
    intro cs
    induction cs with
    | nil => intro r; rfl
    | cons c cs ih => intro r; simp [RedisCache.run, ih]
  have hlen : (setCalls key order).length = sets.length := by
    simp [setCalls, hord.length_eq]
  refine ⟨⟨?_, local_run_setCalls gc key order blc, ?_⟩,
    ⟨?_, redis_run_setCalls cl key order rc, ?_⟩⟩
  · rw [hlenL, hlen]
  · rcases local_exec_setCalls gc key order blc with h | ⟨s, hs, hd⟩
    · exact absurd h.1 hone
    · have hs2 : s ∈ sets := hord.subset hs
      exact ⟨s, hs2, local_Get_live _ tg key _ hd (le_of_lt (hlive s hs2))⟩
  · rw [hlenR, hlen]
  · rcases redis_exec_setCalls cl key order rc with h | ⟨s, hs, hd⟩
    · exact absurd h.1 hone
    · have hs2 : s ∈ sets := hord.subset hs
      exact ⟨s, hs2, redis_Get_live _ tg key _ hd (le_of_lt (hlive s hs2))⟩

/-- Witness for C16: two `Set` calls on "k" taking the lock in the other order,
read at time 50. -/
theorem sets_in_any_order_then_get_witness :
    (∃ s ∈ [(⟨10, some 1, 100⟩ : SetArgs Nat), ⟨11, some 2, 100⟩],
      (BuildInLocalCache.exec (nullGoCache Nat) (NewBuildInLocalCache ())
          (setCalls "k" [⟨11, some 2, 100⟩, ⟨10, some 1, 100⟩])).Get 50 "k"
        = (BuildInLocalCache.exec (nullGoCache Nat) (NewBuildInLocalCache ())
            (setCalls "k" [⟨11, some 2, 100⟩, ⟨10, some 1, 100⟩]), s.val, none))
    ∧ (∃ s ∈ [(⟨10, some 1, 100⟩ : SetArgs Nat), ⟨11, some 2, 100⟩],
      (RedisCache.exec (downClient Nat) (NewRedisCache ())
          (setCalls "k" [⟨11, some 2, 100⟩, ⟨10, some 1, 100⟩])).Get 50 "k"
        = (RedisCache.exec (downClient Nat) (NewRedisCache ())
            (setCalls "k" [⟨11, some 2, 100⟩, ⟨10, some 1, 100⟩]), s.val, none)) :=
  ⟨(sets_in_any_order_then_get (nullGoCache Nat) (downClient Nat) (NewBuildInLocalCache ())
      (NewRedisCache ()) "k" [⟨10, some 1, 100⟩, ⟨11, some 2, 100⟩]
      [⟨11, some 2, 100⟩, ⟨10, some 1, 100⟩] 50 (List.cons_ne_nil _ _)
      (List.Perm.swap _ _ []) (by decide) (by decide)).1.2.2,
   (sets_in_any_order_then_get (nullGoCache Nat) (downClient Nat) (NewBuildInLocalCache ())
      (NewRedisCache ()) "k" [⟨10, some 1, 100⟩, ⟨11, some 2, 100⟩]
      [⟨11, some 2, 100⟩, ⟨10, some 1, 100⟩] 50 (List.cons_ne_nil _ _)
      (List.Perm.swap _ _ []) (by decide) (by decide)).2.2.2⟩

/-! ## Frame: what the operations leave alone -/

theorem local_Get_nil_error {S V : Type} (blc : BuildInLocalCache S V) (now : Time)
    (key : String) (h : (blc.Get now key).2.2 = none) : (blc.Get now key).1 = blc := by
  rw [local_Get_eq] at h ⊢
  cases hd : blc.data key with
  | none => rfl
  | some res =>
    rw [hd] at h
    by_cases hb : BuildInLocalCache.deadlineBefore res now = true
    · simp [hb] at h
    · simp [hb]

theorem redis_Get_nil_error {R V : Type} (rc : RedisCache R V) (now : Time)
    (key : String) (h : (rc.Get now key).2.2 = none) : (rc.Get now key).1 = rc := by
  rw [redis_Get_eq] at h ⊢
  cases hd : rc.data key with
  | none => rfl
  | some res =>
    rw [hd] at h
    by_cases hb : RedisCache.deadlineBefore res now = true
    · simp [hb] at h
    · simp [hb]

/-- C17: in both drivers `Set`, `Get` and `Delete` on a key leave the entry of
every other key `k2 ≠ key` as it was (value and deadline, or absence), and a
`Get` that returns with a nil error leaves the whole cache, so the whole index,
unchanged. -/
theorem other_keys_unchanged {S R V : Type} (gc : GoCache S V) (cl : Cmdable R V)
    (blc : BuildInLocalCache S V) (rc : RedisCache R V) (key k2 : String) (now : Time)
    (val : any V) (ttl : Duration) (hne : k2 ≠ key) :
    ((BuildInLocalCache.Set gc blc now key val ttl).1.data k2 = blc.data k2
      ∧ (blc.Get now key).1.data k2 = blc.data k2
      ∧ (blc.Delete key).1.data k2 = blc.data k2
      ∧ ((blc.Get now key).2.2 = none → (blc.Get now key).1 = blc))
    ∧ ((RedisCache.Set cl rc now key val ttl).1.data k2 = rc.data k2
      ∧ (rc.Get now key).1.data k2 = rc.data k2
      ∧ (rc.Delete cl key).1.data k2 = rc.data k2
      ∧ ((rc.Get now key).2.2 = none → (rc.Get now key).1 = rc)) := by
  refine ⟨⟨?_, ?_, ?_, local_Get_nil_error blc now key⟩,
    ⟨?_, ?_, ?_, redis_Get_nil_error rc now key⟩⟩
  · simp [BuildInLocalCache.Set, Function.update_noteq hne]
  · rcases local_Get_data_cases blc now key with h | h
    · rw [h]
    · rw [h, Function.update_noteq hne]
  · simp [BuildInLocalCache.Delete, local_delete_data, Function.update_noteq hne]
  · simp [RedisCache.Set, Function.update_noteq hne]
  · rcases redis_Get_data_cases rc now key with h | h
    · rw [h]
    · rw [h, Function.update_noteq hne]
  · rw [redis_Delete_data, Function.update_noteq hne]

/-- Witness for C17: caches holding "a" and "k"; the operations run on "k", the
entry of "a" stays. -/
theorem other_keys_unchanged_witness :
    ("a" : String) ≠ "k"
    ∧ ((BuildInLocalCache.Set (nullGoCache Nat) (NewBuildInLocalCache ()) 1 "a" (some 1)
        10).1.Get 50 "k").1.data "a"
      = (BuildInLocalCache.Set (nullGoCache Nat) (NewBuildInLocalCache ()) 1 "a" (some 1)
        10).1.data "a"
    ∧ ((RedisCache.Set (downClient Nat) (NewRedisCache ()) 1 "a" (some 1) 10).1.Delete
        (downClient Nat) "k").1.data "a"
      = (RedisCache.Set (downClient Nat) (NewRedisCache ()) 1 "a" (some 1) 10).1.data "a" :=
  ⟨by decide,
   (other_keys_unchanged (nullGoCache Nat) (downClient Nat)
      (BuildInLocalCache.Set (nullGoCache Nat) (NewBuildInLocalCache ()) 1 "a" (some 1) 10).1
      (RedisCache.Set (downClient Nat) (NewRedisCache ()) 1 "a" (some 1) 10).1
      "k" "a" 50 (some 2) 5 (by decide)).1.2.1,
   (other_keys_unchanged (nullGoCache Nat) (downClient Nat)
      (BuildInLocalCache.Set (nullGoCache Nat) (NewBuildInLocalCache ()) 1 "a" (some 1) 10).1
      (RedisCache.Set (downClient Nat) (NewRedisCache ()) 1 "a" (some 1) 10).1
      "k" "a" 50 (some 2) 5 (by decide)).2.2.2.1⟩

/-! ## Entries are created by Set only -/

/-- C18: in both drivers, for every index, key and time, every entry that the
index holds after a `Get` or after a `Delete` was in the index before it, under
the same key and with the same value and deadline (so the keys after are among
the keys before and no remaining entry is changed); and a key that `Get` removed
is the key that was read, and its entry was expired at the read time
(`deadlineBefore` held, so `deadline < now`). -/
theorem get_delete_only_remove {S R V : Type} (cl : Cmdable R V)
    (blc : BuildInLocalCache S V) (rc : RedisCache R V) (key : String) (now : Time) :
    ((∀ k it, (blc.Get now key).1.data k = some it → blc.data k = some it)
      ∧ (∀ k it, (blc.Delete key).1.data k = some it → blc.data k = some it)
      ∧ (∀ k it, blc.data k = some it → (blc.Get now key).1.data k = none →
          k = key ∧ BuildInLocalCache.deadlineBefore it now = true ∧ it.deadline < now))
    ∧ ((∀ k it, (rc.Get now key).1.data k = some it → rc.data k = some it)
      ∧ (∀ k it, (rc.Delete cl key).1.data k = some it → rc.data k = some it)
      ∧ (∀ k it, rc.data k = some it → (rc.Get now key).1.data k = none →
          k = key ∧ RedisCache.deadlineBefore it now = true ∧ it.deadline < now)) := by
  refine ⟨⟨?_, ?_, ?_⟩, ⟨?_, ?_, ?_⟩⟩
  · intro k it h
    rcases local_Get_data_cases blc now key with hc | hc
    · rwa [hc] at h
    · rw [hc] at h
      exact update_none_some blc.data key k it h
  · intro k it h
    simp only [BuildInLocalCache.Delete, local_delete_data] at h
    exact update_none_some blc.data key k it h
  · intro k it hk hgone
    rw [local_Get_eq] at hgone
    cases hd : blc.data key with
    | none =>
      rw [hd] at hgone
      rw [hk] at hgone
      exact absurd hgone (by simp)
    | some res =>
      rw [hd] at hgone
      by_cases hb : BuildInLocalCache.deadlineBefore res now = true
      · simp only [hb, if_true, local_delete_data] at hgone
        by_cases hkk : k = key
        · rw [hkk, hd] at hk
          have hres : res = it := Option.some.inj hk
          rw [hres] at hb
          exact ⟨hkk, hb, ((local_deadlineBefore_iff it now).mp hb).2⟩
        · rw [Function.update_noteq hkk, hk] at hgone
          exact absurd hgone (by simp)
      · simp only [hb, Bool.false_eq_true, if_false] at hgone
        rw [hk] at hgone
        exact absurd hgone (by simp)
  · intro k it h
    rcases redis_Get_data_cases rc now key with hc | hc
    · rwa [hc] at h
    · rw [hc] at h
      exact update_none_some rc.data key k it h
  · intro k it h
    rw [redis_Delete_data] at h
    exact update_none_some rc.data key k it h
  · intro k it hk hgone
    rw [redis_Get_eq] at hgone
    cases hd : rc.data key with
    | none =>
      rw [hd] at hgone
      rw [hk] at hgone
      exact absurd hgone (by simp)
    | some res =>
      rw [hd] at hgone
      by_cases hb : RedisCache.deadlineBefore res now = true
      · simp only [hb, if_true, redis_delete_data] at hgone
        by_cases hkk : k = key
        · rw [hkk, hd] at hk
          have hres : res = it := Option.some.inj hk
          rw [hres] at hb
          exact ⟨hkk, hb, (redis_deadlineBefore_iff it now).mp hb⟩
        · rw [Function.update_noteq hkk, hk] at hgone
          exact absurd hgone (by simp)
      · simp only [hb, Bool.false_eq_true, if_false] at hgone
        rw [hk] at hgone
        exact absurd hgone (by simp)

/-- Witness for C18: the entry `("k", 1, deadline 100)` is removed by `Get("k")`
at time 101, when it is past its deadline. -/
theorem get_delete_only_remove_witness :
    (BuildInLocalCache.Set (nullGoCache Nat) (NewBuildInLocalCache ()) 90 "k" (some 1)
        10).1.data "k" = some ⟨some 1, 100⟩
    ∧ ((BuildInLocalCache.Set (nullGoCache Nat) (NewBuildInLocalCache ()) 90 "k" (some 1)
        10).1.Get 101 "k").1.data "k" = none
    ∧ (100 : Time) < 101
    ∧ RedisCache.deadlineBefore (⟨some 1, 100⟩ : item Nat) 101 = true :=
  ⟨by decide, by decide,
   ((get_delete_only_remove (downClient Nat)
      (BuildInLocalCache.Set (nullGoCache Nat) (NewBuildInLocalCache ()) 90 "k" (some 1) 10).1
      (RedisCache.Set (downClient Nat) (NewRedisCache ()) 90 "k" (some 1) 10).1
      "k" 101).1.2.2 "k" ⟨some 1, 100⟩ (by decide) (by decide)).2.2,
   ((get_delete_only_remove (downClient Nat)
      (BuildInLocalCache.Set (nullGoCache Nat) (NewBuildInLocalCache ()) 90 "k" (some 1) 10).1
      (RedisCache.Set (downClient Nat) (NewRedisCache ()) 90 "k" (some 1) 10).1
      "k" 101).2.2.2 "k" ⟨some 1, 100⟩ (by decide) (by decide)).2.1⟩

/-! ## The zero deadline -/

/-- C19: in the local driver an index entry whose deadline is the zero time
never expires: at every read time `Get` returns its value with a nil error and
leaves the cache, entry included, unchanged.  The redis driver has no such
sentinel: at every read time later than the zero time `Get` treats an entry with
the zero deadline as expired, removes it and fails with NotFound. -/
theorem zero_deadline_local_only {S R V : Type} (blc : BuildInLocalCache S V)
    (rc : RedisCache R V) (key : String) (it : item V)
    (hl : blc.data key = some it) (hr : rc.data key = some it)
    (hz : Time.IsZero it.deadline = true) :
    (∀ now : Time, blc.Get now key = (blc, it.val, none)
      ∧ (blc.Get now key).1.data key = some it)
    ∧ (∀ now : Time, 0 < now →
      RedisCache.deadlineBefore it now = true
      ∧ rc.Get now key = (rc.delete key, none, some CacheError.ErrNotFound)
      ∧ (rc.Get now key).1.data key = none) := by
  have hz0 : it.deadline = 0 := by
    simpa [Time.IsZero] using hz
  constructor
  · intro now
    have hb : BuildInLocalCache.deadlineBefore it now = false := by
      rw [Bool.eq_false_iff, Ne, local_deadlineBefore_iff]
      exact fun hh => hh.1 hz0
    have hg : blc.Get now key = (blc, it.val, none) := by
      rw [local_Get_eq, hl]
      simp [hb]
    refine ⟨hg, ?_⟩
    rw [hg]
    exact hl
  · intro now hnow
    have hlt : it.deadline < now := by
      rw [hz0]
      exact hnow
    have hg := redis_Get_entry rc now key it hr
    rw [if_pos hlt] at hg
    refine ⟨(redis_deadlineBefore_iff it now).mpr hlt, hg, ?_⟩
    rw [hg]
    exact redis_delete_key rc key

/-- Witness for C19: the entry `("k", 7, zero deadline)` read at time 1000. -/
theorem zero_deadline_local_only_witness :
    (singleton "k" (⟨some 7, 0⟩ : item Nat)) "k" = some ⟨some 7, 0⟩
    ∧ Time.IsZero (0 : Time) = true
    ∧ (BuildInLocalCache.mk (singleton "k" (⟨some 7, 0⟩ : item Nat)) ⟨(), []⟩).Get 1000 "k"
        = (BuildInLocalCache.mk (singleton "k" ⟨some 7, 0⟩) ⟨(), []⟩, some 7, none)
    ∧ ((RedisCache.mk (singleton "k" (⟨some 7, 0⟩ : item Nat)) ⟨(), []⟩).Get 1000 "k").2
        = (none, some CacheError.ErrNotFound) :=
  have h : (singleton "k" (⟨some 7, 0⟩ : item Nat)) "k" = some ⟨some 7, 0⟩ := by decide
  ⟨h, by decide,
   ((zero_deadline_local_only
      (BuildInLocalCache.mk (singleton "k" ⟨some 7, 0⟩) ⟨(), ([] : List (ClientCall Nat))⟩)
      (RedisCache.mk (singleton "k" ⟨some 7, 0⟩) ⟨(), ([] : List (ClientCall Nat))⟩)
      "k" ⟨some 7, 0⟩ h h (by decide)).1 1000).1,
   congrArg Prod.snd ((zero_deadline_local_only
      (BuildInLocalCache.mk (singleton "k" ⟨some 7, 0⟩) ⟨(), ([] : List (ClientCall Nat))⟩)
      (RedisCache.mk (singleton "k" ⟨some 7, 0⟩) ⟨(), ([] : List (ClientCall Nat))⟩)
      "k" ⟨some 7, 0⟩ h h (by decide)).2 1000 (by decide)).2.1⟩
